import Mathlib

/-!
Verification of the Ethos-U NPU legalization pass
(`python/tvm/relay/backend/contrib/ethosu/legalize.py`).

This file gives a shallow embedding of the pure computational content of the
per-operator legalizers (split section computation, LUT synthesis, binary
elementwise rank padding, the no-op guard rewrite, the three-way mean
decomposition, and the layout-validation logic of the convolution, depthwise,
pooling, binary and unary rewriters) and proves the specified properties about
them.  Machine floats of the source are modelled by rational numbers; Python
lists by Lean lists; raised exceptions by `Except`.
-/

namespace EthosULegalize

/-! ## Split legalizer (`SplitRewriter`) -/

/-- The `indices_or_sections` attribute of a relay `split` operator: either an
explicit array of cut indices or an integer number of sections. -/
inductive IndicesOrSections where
  | indices (idxs : List Nat)
  | sections (num : Nat)
deriving DecidableEq

/-- Python `range(0, stop, step)` for a non-negative step (an empty list when
the step is zero, which in Python would raise `ValueError`; valid split
specifications never produce a zero step). -/
def pyRange (stop step : Nat) : List Nat :=
  (List.range ((stop + step - 1) / step)).map (fun i => i * step)

/-- Embedding of `SplitRewriter.get_section_begin_coords`: for an explicit
index array the section begins are `[0] + indices`; for an integer section
count they are `range(0, split_axis_len, split_axis_len // num)`. -/
def get_section_begin_coords (ios : IndicesOrSections) (splitAxisLen : Nat) :
    List Nat :=
  match ios with
  | .indices idxs => 0 :: idxs
  | .sections num => pyRange splitAxisLen (splitAxisLen / num)

/-- Embedding of the begin/end vectors built by `SplitRewriter.callback`:
every begin vector is all zeros except the split axis set to a section begin;
every end vector is the input shape with the split axis set to the next
section begin, the last end being the input shape itself. -/
def splitCallback (inputShape : List Nat) (axis : Nat) (ios : IndicesOrSections) :
    List (List Nat × List Nat) :=
  let coords := get_section_begin_coords ios (inputShape.getD axis 0)
  let splitBegins := coords.map (fun c => (List.replicate inputShape.length 0).set axis c)
  let splitEnds := (coords.map (fun c => inputShape.set axis c)).tail ++ [inputShape]
  splitBegins.zip splitEnds

/-- A valid split specification for an axis of extent `len`: explicit cut
indices must be strictly ascending and lie strictly between 0 and `len`;
an integer section count must be positive and divide the extent exactly. -/
def ValidSplit (ios : IndicesOrSections) (len : Nat) : Prop :=
  match ios with
  | .indices idxs => List.Chain' (· < ·) (0 :: idxs) ∧ (∀ i ∈ idxs, i < len) ∧ 0 < len
  | .sections num => 0 < num ∧ num ∣ len ∧ 0 < len

instance (ios : IndicesOrSections) (len : Nat) : Decidable (ValidSplit ios len) := by
  unfold ValidSplit
  match ios with
  | .indices idxs => exact inferInstance
  | .sections num => exact inferInstance

/-- A strictly increasing chain starting at `a` has `a` below or at its last
element. -/
theorem chain_le_getLastD (a : Nat) (l : List Nat)
    (h : List.Chain' (· < ·) (a :: l)) : a ≤ (a :: l).getLastD 0 := by
  induction l generalizing a with
  | nil => simp
  | cons b t ih =>
    rw [List.chain'_cons] at h
    have hb := ih b h.2
    simp only [List.getLastD_cons] at hb ⊢
    omega

/-- For a strictly increasing list of boundaries, a coordinate `j` lies in
exactly one of the adjacent half-open intervals exactly when it lies between
the first and the last boundary. -/
theorem countP_adjacent (a : Nat) (l : List Nat)
    (h : List.Chain' (· < ·) (a :: l)) (j : Nat) :
    ((a :: l).zip l).countP (fun p => decide (p.1 ≤ j) && decide (j < p.2))
      = if a ≤ j ∧ j < (a :: l).getLastD 0 then 1 else 0 := by
  induction l generalizing a with
  | nil =>
    have hf : ¬(a ≤ j ∧ j < a) := by omega
    simp [hf]
  | cons b t ih =>
    rw [List.chain'_cons] at h
    have hrec := ih b h.2
    have hble := chain_le_getLastD b t h.2
    have hab := h.1
    rw [List.zip_cons_cons, List.countP_cons]
    simp only [List.getLastD_cons] at hrec hble ⊢
    rw [hrec]
    by_cases hjb : j < b
    · simp only [hjb, decide_true_eq_true, Bool.and_true, decide_eq_true_eq]
      split_ifs <;> simp_all <;> omega
    · simp only [hjb, decide_false_eq_false, Bool.and_false]
      split_ifs <;> simp_all <;> omega

/-- Extracting the split-axis coordinate from zipped begin/end vectors is the
zip of the coordinate-extracted lists. -/
theorem map_zip_getD (axis : Nat) :
    ∀ (l₁ l₂ : List (List Nat)),
      (l₁.zip l₂).map (fun p => (p.1.getD axis 0, p.2.getD axis 0))
        = (l₁.map (fun l => l.getD axis 0)).zip (l₂.map (fun l => l.getD axis 0)) := by
  intro l₁
  induction l₁ with
  | nil => intro l₂; simp
  | cons x t ih =>
    intro l₂
    cases l₂ with
    | nil => simp
    | cons y t₂ =>
      simp only [List.zip_cons_cons, List.map_cons]
      rw [ih]

/-- Zipping against a list of the same length ignores any appended tail on the
left. -/
theorem zip_append_left {α β : Type} :
    ∀ (l₁ : List α) (l₂ : List β) (l₃ : List α), l₁.length = l₂.length →
      (l₁ ++ l₃).zip l₂ = l₁.zip l₂ := by
  intro l₁
  induction l₁ with
  | nil => intro l₂ l₃ h; cases l₂ <;> simp_all
  | cons x t ih =>
    intro l₂ l₃ h
    cases l₂ with
    | nil => simp at h
    | cons y t₂ => simp_all [ih]

/-- The section boundary list of the split legalization: the section begin
coordinates followed by the split-axis extent. -/
def splitBounds (inputShape : List Nat) (axis : Nat) (ios : IndicesOrSections) :
    List Nat :=
  get_section_begin_coords ios (inputShape.getD axis 0) ++ [inputShape.getD axis 0]

/-- For a valid split specification the section begin coordinates start at 0,
are strictly increasing, and all lie below the axis extent. -/
theorem coords_spec (ios : IndicesOrSections) (L : Nat) (hv : ValidSplit ios L) :
    ∃ rest, get_section_begin_coords ios L = 0 :: rest
      ∧ List.Chain' (· < ·) (0 :: rest)
      ∧ ∀ c ∈ (0 :: rest : List Nat), c < L := by
  match ios with
  | .indices idxs =>
    obtain ⟨hchain, hlt, hL⟩ := hv
    exact ⟨idxs, rfl, hchain, by
      intro c hc
      rcases List.mem_cons.mp hc with h0 | hm
      · omega
      · exact hlt c hm⟩
  | .sections num =>
    obtain ⟨hnum, hdvd, hL⟩ := hv
    have hs : 0 < L / num := Nat.div_pos (Nat.le_of_dvd hL hdvd) hnum
    set s := L / num with hsdef
    have hsnum : s * num = L := Nat.div_mul_cancel hdvd
    have hcount : (L + s - 1) / s = num := by
      have h1 : L + s - 1 = (s - 1) + s * num := by omega
      rw [h1, Nat.add_mul_div_left _ _ hs, Nat.div_eq_of_lt (by omega)]
      omega
    have hcoords : get_section_begin_coords (.sections num) L
        = (List.range num).map (fun i => i * s) := by
      simp only [get_section_begin_coords, pyRange, ← hsdef, hcount]
    have hchain : List.Chain' (· < ·) ((List.range num).map (fun i => i * s)) := by
      rw [List.chain'_iff_pairwise]
      exact (List.pairwise_lt_range num).map _
        (fun a b hab => mul_lt_mul_of_pos_right hab hs)
    have hmem : ∀ c ∈ (List.range num).map (fun i => i * s), c < L := by
      intro c hc
      obtain ⟨i, hi, rfl⟩ := List.mem_map.mp hc
      have hi' : i < num := List.mem_range.mp hi
      calc i * s < num * s := mul_lt_mul_of_pos_right hi' hs
      _ = L := by rw [Nat.mul_comm]; exact hsnum
    obtain ⟨m, rfl⟩ := Nat.exists_eq_succ_of_ne_zero (Nat.pos_iff_ne_zero.mp hnum)
    rw [List.range_succ_eq_map] at hcoords hchain hmem
    simp only [List.map_cons, Nat.zero_mul] at hcoords hchain hmem
    exact ⟨_, hcoords, hchain, hmem⟩

/-- C2: for every split operator with axis extent `L` and a valid split
specification, the section boundaries are strictly increasing, start at 0 and
end at `L`, the emitted strided slices have exactly the adjacent boundary
pairs as begin/end coordinates on the split axis, and every coordinate below
`L` lies in exactly one emitted slice (no overlap and no gap). -/
theorem split_exact_partition (inputShape : List Nat) (axis : Nat)
    (ios : IndicesOrSections) (hax : axis < inputShape.length)
    (hv : ValidSplit ios (inputShape.getD axis 0)) :
    List.Chain' (· < ·) (splitBounds inputShape axis ios)
    ∧ (splitBounds inputShape axis ios).head? = some 0
    ∧ (splitBounds inputShape axis ios).getLast? = some (inputShape.getD axis 0)
    ∧ (splitCallback inputShape axis ios).map
        (fun p => (p.1.getD axis 0, p.2.getD axis 0))
      = (splitBounds inputShape axis ios).zip (splitBounds inputShape axis ios).tail
    ∧ ∀ j : Nat,
        ((splitBounds inputShape axis ios).zip
            (splitBounds inputShape axis ios).tail).countP
          (fun p => decide (p.1 ≤ j) && decide (j < p.2))
        = if j < inputShape.getD axis 0 then 1 else 0 := by
  set L := inputShape.getD axis 0 with hLdef
  obtain ⟨rest, hco, hchain, hmem⟩ := coords_spec ios L hv
  have hbounds : splitBounds inputShape axis ios = 0 :: (rest ++ [L]) := by
    unfold splitBounds
    rw [← hLdef, hco]
    simp
  have hchainB : List.Chain' (· < ·) (splitBounds inputShape axis ios) := by
    unfold splitBounds
    rw [← hLdef, hco, List.chain'_append]
    refine ⟨hchain, List.chain'_singleton L, ?_⟩
    intro x hx y hy
    simp only [List.head?_cons, Option.mem_def, Option.some.injEq] at hy
    subst hy
    have hxm : x ∈ (0 :: rest : List Nat) := by
      have hne : (0 :: rest : List Nat) ≠ [] := by simp
      rw [List.getLast?_eq_getLast _ hne] at hx
      simp only [Option.mem_def, Option.some.injEq] at hx
      subst hx
      exact List.getLast_mem hne
    exact hmem x hxm
  refine ⟨hchainB, ?_, ?_, ?_, ?_⟩
  · rw [hbounds]; rfl
  · unfold splitBounds
    rw [← hLdef, List.getLast?_concat]
  · -- begin/end coordinates on the split axis are the adjacent boundary pairs
    have hgetD : ∀ (l : List Nat) (c : Nat), axis < l.length →
        ((l.set axis c).getD axis 0) = c := by
      intro l c hl
      rw [List.getD_eq_getElem _ _ (by simpa using hl)]
      exact List.getElem_set_self _
    have hfun₁ : ((fun l : List Nat => l.getD axis 0) ∘
        fun c => (List.replicate inputShape.length 0).set axis c) = id := by
      funext c
      exact hgetD _ c (by simpa using hax)
    have hfun₂ : ((fun l : List Nat => l.getD axis 0) ∘
        fun c => inputShape.set axis c) = id := by
      funext c
      exact hgetD _ c hax
    unfold splitCallback
    rw [map_zip_getD]
    simp only [← hLdef]
    rw [List.map_append, ← List.map_tail, List.map_map, List.map_map]
    rw [hfun₁, hfun₂, List.map_id, List.map_id]
    simp only [List.map_cons, List.map_nil]
    simp only [← hLdef]
    rw [hbounds, hco]
    simp only [List.tail_cons]
    rw [show ((0 : Nat) :: (rest ++ [L])) = ((0 :: rest) ++ [L] : List Nat) from by simp]
    rw [zip_append_left (0 :: rest) (rest ++ [L]) [L] (by simp)]
  · intro j
    rw [hbounds]
    have hch : List.Chain' (· < ·) (0 :: (rest ++ [L])) := hbounds ▸ hchainB
    simp only [List.tail_cons]
    rw [countP_adjacent 0 (rest ++ [L]) hch j]
    have hlast : ((0 : Nat) :: (rest ++ [L])).getLastD 0 = L := by
      rw [show ((0 : Nat) :: (rest ++ [L])) = ((0 :: rest) ++ [L] : List Nat) by simp]
      exact List.getLastD_concat 0 L (0 :: rest)
    rw [hlast]
    simp only [Nat.zero_le, true_and]

/-- Witness instantiating `split_exact_partition` on a split of a `[2, 6]`
tensor into 3 sections along axis 1. -/
theorem split_exact_partition_witness :
    List.Chain' (· < ·) (splitBounds [2, 6] 1 (.sections 3))
    ∧ (splitBounds [2, 6] 1 (.sections 3)).head? = some 0
    ∧ (splitBounds [2, 6] 1 (.sections 3)).getLast? = some 6
    ∧ (splitCallback [2, 6] 1 (.sections 3)).map
        (fun p => (p.1.getD 1 0, p.2.getD 1 0))
      = (splitBounds [2, 6] 1 (.sections 3)).zip (splitBounds [2, 6] 1 (.sections 3)).tail
    ∧ ((splitBounds [2, 6] 1 (.sections 3)).zip
          (splitBounds [2, 6] 1 (.sections 3)).tail).countP
        (fun p => decide (p.1 ≤ 3) && decide (3 < p.2)) = if 3 < 6 then 1 else 0 := by
  obtain ⟨h1, h2, h3, h4, h5⟩ :=
    split_exact_partition [2, 6] 1 (.sections 3) (by decide) (by decide)
  exact ⟨h1, h2, h3, h4, h5 3⟩

/-! ## LUT synthesis (`get_lut_from_func`) -/

/-- Modelled from the spec: `util.round_away_zero` (outside `src/`) rounds to
the nearest integer with ties away from zero. -/
def round_away_zero (x : ℚ) : ℤ :=
  if 0 ≤ x then ⌊x + 1 / 2⌋ else -⌊-x + 1 / 2⌋

/-- Embedding of `get_lut_from_func`: for every int8 code from `qmin = -128`
to `qmax = 127` the real input value is dequantized with the input
quantization, passed through the activation function, requantized with the
output quantization using round-away-from-zero, and clamped to
`[qmin, qmax]`.  Machine floats are modelled by rationals. -/
def get_lut_from_func (ifm_scale : ℚ) (ifm_zp : ℤ) (ofm_scale : ℚ) (ofm_zp : ℤ)
    (func : ℚ → ℚ) : List ℤ :=
  (List.range 256).map fun (i : ℕ) =>
    let x : ℤ := (i : ℤ) - 128
    let x_real : ℚ := ifm_scale * ((x : ℚ) - (ifm_zp : ℚ))
    let out_real : ℚ := func x_real
    let lut_result : ℤ := round_away_zero ((ofm_zp : ℚ) + out_real / ofm_scale)
    min 127 (max (-128) lut_result)

/-- C3: for every signed 8-bit code `x`, the synthesized LUT entry equals the
round-half-away-from-zero requantization of the activation function applied to
the dequantized input, clamped to `[-128, 127]`; in particular every entry
lies in `[-128, 127]`. -/
theorem lut_entry_spec (ifm_scale : ℚ) (ifm_zp : ℤ) (ofm_scale : ℚ) (ofm_zp : ℤ)
    (func : ℚ → ℚ) (x : ℤ) (hlo : -128 ≤ x) (hhi : x ≤ 127) :
    (get_lut_from_func ifm_scale ifm_zp ofm_scale ofm_zp func).getD (x + 128).toNat 0
      = min 127 (max (-128)
          (round_away_zero ((ofm_zp : ℚ)
            + func (ifm_scale * ((x : ℚ) - (ifm_zp : ℚ))) / ofm_scale)))
    ∧ -128 ≤ (get_lut_from_func ifm_scale ifm_zp ofm_scale ofm_zp func).getD
        (x + 128).toNat 0
    ∧ (get_lut_from_func ifm_scale ifm_zp ofm_scale ofm_zp func).getD
        (x + 128).toNat 0 ≤ 127 := by
  have hlen : (x + 128).toNat
      < (get_lut_from_func ifm_scale ifm_zp ofm_scale ofm_zp func).length := by
    unfold get_lut_from_func
    rw [List.length_map, List.length_range]
    omega
  have hcast : (((x + 128).toNat : ℤ)) - 128 = x := by omega
  have hget : (get_lut_from_func ifm_scale ifm_zp ofm_scale ofm_zp func).getD
      (x + 128).toNat 0
      = min 127 (max (-128)
          (round_away_zero ((ofm_zp : ℚ)
            + func (ifm_scale * ((x : ℚ) - (ifm_zp : ℚ))) / ofm_scale))) := by
    rw [List.getD_eq_getElem _ _ hlen]
    unfold get_lut_from_func
    simp only [List.getElem_map, List.getElem_range]
    rw [hcast]
  refine ⟨hget, ?_, ?_⟩ <;> rw [hget] <;> omega

/-- Witness instantiating `lut_entry_spec` with the identity activation at
unit scales and the code 5. -/
theorem lut_entry_spec_witness :
    (get_lut_from_func 1 0 1 0 (fun q => q)).getD (5 + 128 : ℤ).toNat 0
      = min 127 (max (-128)
          (round_away_zero ((0 : ℚ) + (fun q : ℚ => q) (1 * ((5 : ℚ) - (0 : ℚ))) / 1)))
    ∧ -128 ≤ (get_lut_from_func 1 0 1 0 (fun q => q)).getD (5 + 128 : ℤ).toNat 0
    ∧ (get_lut_from_func 1 0 1 0 (fun q => q)).getD (5 + 128 : ℤ).toNat 0 ≤ 127 :=
  lut_entry_spec 1 0 1 0 (fun q => q) 5 (by decide) (by decide)

/-! ## Shared legalizer structures -/

/-- Failure of a legalizer callback: either the typed `UnsupportedLayout`
exception raised by a membership check, or an untyped Python `KeyError`
escaping from a direct dictionary subscript. -/
inductive LegalizeError where
  | unsupportedLayout (layout : String)
  | keyError (key : String)
deriving DecidableEq

/-- The `channels_map` literal of the conv2d, depthwise, pooling and binary
elementwise rewriters: only the channel-last layout is accepted, with channel
axis 3. -/
def channels_map : List (String × Nat) := [("NHWC", 3)]

/-- A trailing activation carried by a composite: the operator name and its
clip bounds `a_min`/`a_max`. -/
structure Activation where
  opName : String
  aMin : ℤ
  aMax : ℤ
deriving DecidableEq

/-- The `activation_map` literal of the rewriters (for the depthwise rewriter
this is `QnnDepthwiseConv2DParams.activation_map`, modelled from the spec
since the patterns module is outside `src/`): only a trailing clip has a
mapping. -/
def activation_map : List (String × String) := [("clip", "CLIP")]

/-- Shared activation extraction of the rewriter callbacks: a present
activation is looked up in `activation_map` by direct subscript (an unmapped
name raises `KeyError`) and its clip bounds are read; an absent activation
yields `NONE` with zero clip bounds. -/
def extractActivation (act : Option Activation) :
    Except LegalizeError (String × ℤ × ℤ) :=
  match act with
  | some a =>
    match activation_map.lookup a.opName with
    | none => .error (.keyError a.opName)
    | some mapped => .ok (mapped, a.aMin, a.aMax)
  | none => .ok ("NONE", 0, 0)

/-! ## Conv2D legalizer (`Conv2DRewriter`) -/

/-- The attributes of an `ethos-u.qnn_conv2d` composite consumed by the
shape/layout logic of `Conv2DRewriter.callback`. -/
structure QnnConv2DParams where
  ofmLayout : String
  ofmShape : List Nat
  weightsLayout : String
  weightsShape : List Nat
  activation : Option Activation
deriving DecidableEq

/-- The `kernel_size_map` of `Conv2DRewriter.callback`: kernel height/width
slices of the weight shape for each accepted weight layout. -/
def kernel_size_map (layout : String) (weightsShape : List Nat) :
    Option (List Nat) :=
  if layout = "HWIO" then some (weightsShape.take 2)
  else if layout = "OHWI" then some ((weightsShape.drop 1).take 2)
  else if layout = "HWOI" then some (weightsShape.take 2)
  else none

/-- The `weight_to_ohwi_transform_map` of `Conv2DRewriter.callback`: the
transpose permutation bringing weights to OHWI order, present only for the
HWIO layout. -/
def weight_to_ohwi_transform_map (layout : String) : Option (List Nat) :=
  if layout = "HWIO" then some [3, 0, 1, 2] else none

/-- The attributes of the emitted `ethosu_conv2d` operator tracked by the
embedding (quantization plumbing and the opaque bias-packing service are not
modelled). -/
structure EthosuConv2D where
  kernelShape : List Nat
  weightTranspose : List Nat
  activation : String
  clipMin : ℤ
  clipMax : ℤ
  ofmChannels : Nat
deriving DecidableEq

/-- Embedding of the validation and attribute extraction of
`Conv2DRewriter.callback`, in source order: output layout membership check,
weight layout membership check, weight transpose by direct subscript of
`weight_to_ohwi_transform_map` (a `KeyError` for accepted-but-unmapped
layouts), then activation extraction. -/
def conv2dCallback (params : QnnConv2DParams) :
    Except LegalizeError EthosuConv2D :=
  match channels_map.lookup params.ofmLayout with
  | none => .error (.unsupportedLayout params.ofmLayout)
  | some chAxis =>
    match kernel_size_map params.weightsLayout params.weightsShape with
    | none => .error (.unsupportedLayout params.weightsLayout)
    | some kernelSize =>
      match weight_to_ohwi_transform_map params.weightsLayout with
      | none => .error (.keyError params.weightsLayout)
      | some perm =>
        match extractActivation params.activation with
        | .error e => .error e
        | .ok (act, cmin, cmax) =>
          .ok { kernelShape := kernelSize
                weightTranspose := perm
                activation := act
                clipMin := cmin
                clipMax := cmax
                ofmChannels := params.ofmShape.getD chAxis 0 }

/-! ## Depthwise conv2d legalizer (`DepthwiseConv2DRewriter`) -/

/-- The attributes of an `ethos-u.qnn_depthwise_conv2d` composite consumed by
the shape/layout logic of `DepthwiseConv2DRewriter.callback`. -/
structure QnnDepthwiseParams where
  ofmLayout : String
  ofmShape : List Nat
  weightsLayout : String
  weightsShape : List Nat
  activation : Option Activation
deriving DecidableEq

/-- The attributes of the emitted `ethosu_depthwise_conv2d` operator tracked
by the embedding. -/
structure EthosuDepthwiseConv2D where
  kernelShape : List Nat
  activation : String
  clipMin : ℤ
  clipMax : ℤ
  ofmChannels : Nat
deriving DecidableEq

/-- Embedding of the validation and attribute extraction of
`DepthwiseConv2DRewriter.callback`: output layout membership check, weight
layout membership check against the single accepted HWOI layout, then
activation extraction. -/
def depthwiseCallback (params : QnnDepthwiseParams) :
    Except LegalizeError EthosuDepthwiseConv2D :=
  match channels_map.lookup params.ofmLayout with
  | none => .error (.unsupportedLayout params.ofmLayout)
  | some chAxis =>
    match (if params.weightsLayout = "HWOI"
        then some (params.weightsShape.take 2) else none) with
    | none => .error (.unsupportedLayout params.weightsLayout)
    | some kernelShape =>
      match extractActivation params.activation with
      | .error e => .error e
      | .ok (act, cmin, cmax) =>
        .ok { kernelShape := kernelShape
              activation := act
              clipMin := cmin
              clipMax := cmax
              ofmChannels := params.ofmShape.getD chAxis 0 }

/-! ## Pooling legalizer (`PoolingRewriter`) -/

/-- The attributes of a pooling composite consumed by the layout logic of
`PoolingRewriter.callback` (shared by the max and average variants). -/
structure PoolingCompositeParams where
  ofmLayout : String
  ofmShape : List Nat
  poolingType : String
  poolShape : List Nat
  activation : Option Activation
deriving DecidableEq

/-- The attributes of the emitted `ethosu_pooling` operator tracked by the
embedding; pooling always carries an empty lookup table. -/
structure EthosuPooling where
  poolingType : String
  poolShape : List Nat
  activation : String
  clipMin : ℤ
  clipMax : ℤ
  ofmChannels : Nat
  lut : List ℤ
deriving DecidableEq

/-- Embedding of `PoolingRewriter.callback`: output layout membership check,
activation extraction, empty LUT. -/
def poolingCallback (params : PoolingCompositeParams) :
    Except LegalizeError EthosuPooling :=
  match channels_map.lookup params.ofmLayout with
  | none => .error (.unsupportedLayout params.ofmLayout)
  | some chAxis =>
    match extractActivation params.activation with
    | .error e => .error e
    | .ok (act, cmin, cmax) =>
      .ok { poolingType := params.poolingType
            poolShape := params.poolShape
            activation := act
            clipMin := cmin
            clipMax := cmax
            ofmChannels := params.ofmShape.getD chAxis 0
            lut := [] }

/-! ## Binary and unary elementwise legalizers -/

/-- Expression fragments emitted by the binary/unary elementwise rewriters:
operand tensors, relay reshapes, and the hardware elementwise operators. -/
inductive BEExpr where
  | input (shape : List Nat)
  | reshape (e : BEExpr) (newshape : List Nat)
  | hwBinaryElementwise (ifm ifm2 : BEExpr)
  | hwUnaryElementwise (ifm : BEExpr)
deriving DecidableEq

/-- Result shape of an emitted expression.  The NPU requires the
broadcastable operand of a binary elementwise operator to be the second
argument, so its output shape is its first operand's shape (modelled from the
spec; the operator registration is outside `src/`). -/
def beShape : BEExpr → List Nat
  | .input s => s
  | .reshape _ ns => ns
  | .hwBinaryElementwise ifm _ => beShape ifm
  | .hwUnaryElementwise ifm => beShape ifm

/-- Embedding of `BinaryElementwiseRewriter.reshape_input`: any operand of
rank below 4 is reshaped to the shape obtained by prepending size-1 axes. -/
def reshape_input (inputs : List BEExpr) : List BEExpr :=
  inputs.map fun i =>
    let in_shape := beShape i
    if in_shape.length < 4 then
      .reshape i (List.replicate (4 - in_shape.length) 1 ++ in_shape)
    else i

/-- Embedding of `BinaryElementwiseRewriter.reshape_output`: reshape the
result back to the first operand's original shape unless that operand was
already 4-dimensional. -/
def reshape_output (output : BEExpr) (ifm_input_shape : List Nat) : BEExpr :=
  if ifm_input_shape.length = 4 then output
  else .reshape output ifm_input_shape

/-- The attributes of a binary elementwise composite consumed by
`BinaryElementwiseRewriter.callback`. -/
structure BinaryElementwiseParams where
  reversedOperands : Bool
  ofmLayout : String
  operatorType : String
  activation : Option Activation
deriving DecidableEq

/-- Embedding of `BinaryElementwiseRewriter.callback`: operand order is fixed
by the reversed-operands flag, the output layout is membership-checked, the
activation is extracted, both operands are rank-padded, the hardware operator
is emitted, and the result is reshaped back to the first operand's original
shape. -/
def binaryElementwiseCallback (params : BinaryElementwiseParams)
    (arg0 arg1 : BEExpr) : Except LegalizeError BEExpr :=
  let ifm := if params.reversedOperands then arg1 else arg0
  let ifm2 := if params.reversedOperands then arg0 else arg1
  match channels_map.lookup params.ofmLayout with
  | none => .error (.unsupportedLayout params.ofmLayout)
  | some _ =>
    match extractActivation params.activation with
    | .error e => .error e
    | .ok _ =>
      let inputs := reshape_input [ifm, ifm2]
      let hw := BEExpr.hwBinaryElementwise (inputs.getD 0 ifm) (inputs.getD 1 ifm2)
      .ok (reshape_output hw (beShape ifm))

/-- The attributes of a unary elementwise composite consumed by
`UnaryElementwiseRewriter.callback`. -/
structure UnaryElementwiseParams where
  ofmLayout : String
  operatorType : String
  activation : Option Activation
deriving DecidableEq

/-- Embedding of `UnaryElementwiseRewriter.callback`: the output layout must
be exactly NHWC, the activation is extracted, a sub-4D input is reshaped to
rank 4 before the operator and the result reshaped back afterwards. -/
def unaryElementwiseCallback (params : UnaryElementwiseParams) (ifm : BEExpr) :
    Except LegalizeError BEExpr :=
  if params.ofmLayout ≠ "NHWC" then .error (.unsupportedLayout params.ofmLayout)
  else
    match extractActivation params.activation with
    | .error e => .error e
    | .ok _ =>
      let shape := beShape ifm
      let unaryInput := if shape.length = 4 then ifm
        else BEExpr.reshape ifm (List.replicate (4 - shape.length) 1 ++ shape)
      let hw := BEExpr.hwUnaryElementwise unaryInput
      .ok (if shape.length = 4 then hw else BEExpr.reshape hw shape)

/-- C4: for every binary elementwise composite whose operands have ranks 1
through 4 (and an accepted layout and activation), legalization succeeds, the
output shape equals the first (non-reversed) operand's original unpadded
shape, sub-4D operands are padded by prepending size-1 axes before the
hardware operator, and the result is wrapped in a trailing reshape exactly
when the first operand was padded. -/
theorem binary_elementwise_output_shape (params : BinaryElementwiseParams)
    (arg0 arg1 : BEExpr)
    (hlayout : params.ofmLayout = "NHWC")
    (hact : params.activation = none ∨
      ∃ a, params.activation = some a ∧ a.opName = "clip")
    (h0lo : 1 ≤ (beShape arg0).length) (h0hi : (beShape arg0).length ≤ 4)
    (h1lo : 1 ≤ (beShape arg1).length) (h1hi : (beShape arg1).length ≤ 4) :
    ∃ out, binaryElementwiseCallback params arg0 arg1 = .ok out
      ∧ beShape out = beShape (if params.reversedOperands then arg1 else arg0)
      ∧ ((∃ e ns, out = BEExpr.reshape e ns) ↔
          (beShape (if params.reversedOperands then arg1 else arg0)).length < 4)
      ∧ (reshape_input [(if params.reversedOperands then arg1 else arg0),
            (if params.reversedOperands then arg0 else arg1)]).map beShape
        = [List.replicate
              (4 - (beShape (if params.reversedOperands then arg1 else arg0)).length) 1
            ++ beShape (if params.reversedOperands then arg1 else arg0),
           List.replicate
              (4 - (beShape (if params.reversedOperands then arg0 else arg1)).length) 1
            ++ beShape (if params.reversedOperands then arg0 else arg1)] := by
  have hactOk : ∃ r, extractActivation params.activation = .ok r := by
    rcases hact with h | ⟨a, ha, hname⟩
    · exact ⟨_, by rw [h]; rfl⟩
    · refine ⟨("CLIP", a.aMin, a.aMax), ?_⟩
      rw [ha]
      simp [extractActivation, activation_map, List.lookup, hname]
  obtain ⟨r, hr⟩ := hactOk
  set ifm := if params.reversedOperands then arg1 else arg0 with hifm
  set ifm2 := if params.reversedOperands then arg0 else arg1 with hifm2
  have hpad : ∀ e : BEExpr,
      beShape (if (beShape e).length < 4 then
        BEExpr.reshape e (List.replicate (4 - (beShape e).length) 1 ++ beShape e)
      else e)
      = List.replicate (4 - (beShape e).length) 1 ++ beShape e := by
    intro e
    by_cases hlt : (beShape e).length < 4
    · rw [if_pos hlt]; rfl
    · rw [if_neg hlt]
      have h4 : 4 - (beShape e).length = 0 := by omega
      rw [h4, List.replicate_zero, List.nil_append]
  have hifmle : (beShape ifm).length ≤ 4 := by
    rw [hifm]
    cases params.reversedOperands
    · simpa using h0hi
    · simpa using h1hi
  refine ⟨reshape_output
      (BEExpr.hwBinaryElementwise
        ((reshape_input [ifm, ifm2]).getD 0 ifm)
        ((reshape_input [ifm, ifm2]).getD 1 ifm2))
      (beShape ifm), ?_, ?_, ?_, ?_⟩
  · rw [binaryElementwiseCallback]
    rw [hlayout]
    rw [show channels_map.lookup "NHWC" = some 3 from rfl, hr]
  · rw [reshape_output]
    by_cases h4 : (beShape ifm).length = 4
    · rw [if_pos h4]
      show beShape ((reshape_input [ifm, ifm2]).getD 0 ifm) = beShape ifm
      rw [reshape_input]
      simp only [List.map_cons, List.map_nil, List.getD_cons_zero]
      rw [hpad ifm]
      have hz : 4 - (beShape ifm).length = 0 := by omega
      rw [hz, List.replicate_zero, List.nil_append]
    · rw [if_neg h4]; rfl
  · constructor
    · rintro ⟨e, ns, hout⟩
      rw [reshape_output] at hout
      by_cases h4 : (beShape ifm).length = 4
      · rw [if_pos h4] at hout
        exact absurd hout (by simp)
      · exact lt_of_le_of_ne hifmle h4
    · intro hlt
      rw [reshape_output, if_neg (by omega)]
      exact ⟨_, _, rfl⟩
  · rw [reshape_input]
    simp only [List.map_cons, List.map_nil]
    rw [hpad ifm, hpad ifm2]

/-- Witness instantiating `binary_elementwise_output_shape` on a rank-2 first
operand and a rank-1 second operand. -/
theorem binary_elementwise_output_shape_witness :
    ∃ out, binaryElementwiseCallback
        { reversedOperands := false, ofmLayout := "NHWC",
          operatorType := "ADD", activation := none }
        (.input [5, 3]) (.input [3]) = .ok out
      ∧ beShape out = beShape (if false then BEExpr.input [3] else BEExpr.input [5, 3])
      ∧ ((∃ e ns, out = BEExpr.reshape e ns) ↔
          (beShape (if false then BEExpr.input [3] else BEExpr.input [5, 3])).length < 4)
      ∧ (reshape_input [(if false then BEExpr.input [3] else BEExpr.input [5, 3]),
            (if false then BEExpr.input [5, 3] else BEExpr.input [3])]).map beShape
        = [List.replicate
              (4 - (beShape (if false then BEExpr.input [3] else BEExpr.input [5, 3])).length) 1
            ++ beShape (if false then BEExpr.input [3] else BEExpr.input [5, 3]),
           List.replicate
              (4 - (beShape (if false then BEExpr.input [5, 3] else BEExpr.input [3])).length) 1
            ++ beShape (if false then BEExpr.input [5, 3] else BEExpr.input [3])] :=
  binary_elementwise_output_shape
    { reversedOperands := false, ofmLayout := "NHWC",
      operatorType := "ADD", activation := none }
    (.input [5, 3]) (.input [3]) rfl (Or.inl rfl)
    (by decide) (by decide) (by decide) (by decide)

/-- C7: for every conv2d, depthwise-conv2d, pooling, binary-elementwise or
unary-elementwise composite whose output layout is not NHWC, the callback
raises the typed unsupported-layout error naming the offending layout, and no
replacement operator is produced. -/
theorem unsupported_layout_rejected (layout : String) (hne : layout ≠ "NHWC") :
    (∀ p : QnnConv2DParams, p.ofmLayout = layout →
        conv2dCallback p = .error (.unsupportedLayout layout))
    ∧ (∀ p : QnnDepthwiseParams, p.ofmLayout = layout →
        depthwiseCallback p = .error (.unsupportedLayout layout))
    ∧ (∀ p : PoolingCompositeParams, p.ofmLayout = layout →
        poolingCallback p = .error (.unsupportedLayout layout))
    ∧ (∀ (p : BinaryElementwiseParams) (arg0 arg1 : BEExpr), p.ofmLayout = layout →
        binaryElementwiseCallback p arg0 arg1 = .error (.unsupportedLayout layout))
    ∧ (∀ (p : UnaryElementwiseParams) (ifm : BEExpr), p.ofmLayout = layout →
        unaryElementwiseCallback p ifm = .error (.unsupportedLayout layout)) := by
  have hlook : channels_map.lookup layout = none := by
    have hbeq : (layout == "NHWC") = false := beq_eq_false_iff_ne.mpr hne
    simp [channels_map, List.lookup, hbeq]
  refine ⟨?_, ?_, ?_, ?_, ?_⟩
  · intro p hp
    rw [conv2dCallback, hp, hlook]
  · intro p hp
    rw [depthwiseCallback, hp, hlook]
  · intro p hp
    rw [poolingCallback, hp, hlook]
  · intro p arg0 arg1 hp
    rw [binaryElementwiseCallback, hp, hlook]
  · intro p ifm hp
    rw [unaryElementwiseCallback, hp, if_pos hne]

/-- Witness instantiating `unsupported_layout_rejected` at the NCHW layout on
concrete composites. -/
theorem unsupported_layout_rejected_witness :
    conv2dCallback
      { ofmLayout := "NCHW", ofmShape := [1, 4, 8, 8], weightsLayout := "HWIO",
        weightsShape := [3, 3, 4, 4], activation := none }
      = .error (.unsupportedLayout "NCHW")
    ∧ unaryElementwiseCallback
        { ofmLayout := "NCHW", operatorType := "ABS", activation := none }
        (.input [1, 8, 8, 4])
      = .error (.unsupportedLayout "NCHW") := by
  obtain ⟨h1, _, _, _, h5⟩ := unsupported_layout_rejected "NCHW" (by decide)
  exact ⟨h1 _ rfl, h5 _ _ rfl⟩

/-- C10: with an accepted NHWC output layout, a composite whose weight layout
is OHWI or HWOI passes the weight-layout validation but the weight transpose
lookup then fails with an unhandled `KeyError` (not the typed
unsupported-layout error), while an HWIO weight layout legalizes completely. -/
theorem conv2d_weight_layout_gap (p : QnnConv2DParams)
    (hofm : p.ofmLayout = "NHWC") :
    ((p.weightsLayout = "OHWI" ∨ p.weightsLayout = "HWOI") →
        conv2dCallback p = .error (.keyError p.weightsLayout)
        ∧ conv2dCallback p ≠ .error (.unsupportedLayout p.weightsLayout))
    ∧ (p.weightsLayout = "HWIO" →
        (p.activation = none ∨ ∃ a, p.activation = some a ∧ a.opName = "clip") →
        ∃ out, conv2dCallback p = .ok out) := by
  constructor
  · intro hw
    have hks : kernel_size_map p.weightsLayout p.weightsShape
        = some ((if p.weightsLayout = "HWIO" then p.weightsShape.take 2
            else if p.weightsLayout = "OHWI" then (p.weightsShape.drop 1).take 2
            else p.weightsShape.take 2)) := by
      rcases hw with h | h <;> simp [kernel_size_map, h]
    have htr : weight_to_ohwi_transform_map p.weightsLayout = none := by
      rcases hw with h | h <;> simp [weight_to_ohwi_transform_map, h]
    have hres : conv2dCallback p = .error (.keyError p.weightsLayout) := by
      rw [conv2dCallback, hofm]
      rw [show channels_map.lookup "NHWC" = some 3 from rfl, hks, htr]
    exact ⟨hres, by rw [hres]; simp⟩
  · intro hw hact
    have hr : ∃ r, extractActivation p.activation = .ok r := by
      rcases hact with h | ⟨a, ha, hname⟩
      · exact ⟨_, by rw [h]; rfl⟩
      · refine ⟨("CLIP", a.aMin, a.aMax), ?_⟩
        rw [ha]
        simp [extractActivation, activation_map, List.lookup, hname]
    obtain ⟨⟨act, cmin, cmax⟩, hr⟩ := hr
    refine ⟨{ kernelShape := p.weightsShape.take 2, weightTranspose := [3, 0, 1, 2],
              activation := act, clipMin := cmin, clipMax := cmax,
              ofmChannels := p.ofmShape.getD 3 0 }, ?_⟩
    rw [conv2dCallback, hofm]
    rw [show channels_map.lookup "NHWC" = some 3 from rfl]
    rw [show kernel_size_map p.weightsLayout p.weightsShape
        = some (p.weightsShape.take 2) from by rw [hw]; rfl]
    rw [show weight_to_ohwi_transform_map p.weightsLayout
        = some [3, 0, 1, 2] from by rw [hw]; rfl]
    rw [hr]

/-- Witness instantiating `conv2d_weight_layout_gap` on an OHWI-weight
composite and an HWIO-weight composite. -/
theorem conv2d_weight_layout_gap_witness :
    (conv2dCallback
        { ofmLayout := "NHWC", ofmShape := [1, 4, 8, 8], weightsLayout := "OHWI",
          weightsShape := [4, 3, 3, 4], activation := none }
      = .error (.keyError "OHWI")
      ∧ conv2dCallback
        { ofmLayout := "NHWC", ofmShape := [1, 4, 8, 8], weightsLayout := "OHWI",
          weightsShape := [4, 3, 3, 4], activation := none }
      ≠ .error (.unsupportedLayout "OHWI"))
    ∧ ∃ out, conv2dCallback
        { ofmLayout := "NHWC", ofmShape := [1, 4, 8, 8], weightsLayout := "HWIO",
          weightsShape := [3, 3, 4, 4], activation := none }
      = .ok out :=
  ⟨(conv2d_weight_layout_gap
      { ofmLayout := "NHWC", ofmShape := [1, 4, 8, 8], weightsLayout := "OHWI",
        weightsShape := [4, 3, 3, 4], activation := none } rfl).1 (Or.inl rfl),
   (conv2d_weight_layout_gap
      { ofmLayout := "NHWC", ofmShape := [1, 4, 8, 8], weightsLayout := "HWIO",
        weightsShape := [3, 3, 4, 4], activation := none } rfl).2 rfl (Or.inl rfl)⟩

/-! ## No-op guard (`NoOpRewriter`) and pipeline idempotence -/

/-- Expressions of an already-legalized module: leaves, bare reshapes and
strided slices, `ethosu_identity` wrappers and other hardware operators, each
carrying its checked element dtype.  Composite-tagged calls and bare `split`
operators do not occur in such a module. -/
inductive RExpr where
  | var (dtype : String)
  | reshape (e : RExpr) (dtype : String)
  | stridedSlice (e : RExpr) (dtype : String)
  | ethosuIdentity (ifm : RExpr) (lut : List ℤ) (dtype : String)
  | hwOp (opName : String) (ifm : RExpr) (dtype : String)
deriving DecidableEq

/-- Embedding of `NoOpRewriter.callback`: a matched reshape or strided slice
whose checked dtype is int32 is returned unchanged; otherwise it is wrapped
in an `ethosu_identity` with an empty LUT. -/
def noOpCallback (e : RExpr) : RExpr :=
  match e with
  | .reshape _ d => if d = "int32" then e else .ethosuIdentity e [] d
  | .stridedSlice _ d => if d = "int32" then e else .ethosuIdentity e [] d
  | _ => e

/-- Embedding of the `LegalizeNoOps` rewrite: the pattern
`is_op("reshape")(wildcard()) | is_op("strided_slice")(wildcard())` is matched
on every node in post order and each match is rewritten once by
`NoOpRewriter.callback`. -/
def rewriteNoOps : RExpr → RExpr
  | .var d => .var d
  | .reshape e d => noOpCallback (.reshape (rewriteNoOps e) d)
  | .stridedSlice e d => noOpCallback (.stridedSlice (rewriteNoOps e) d)
  | .ethosuIdentity e lut d => .ethosuIdentity (rewriteNoOps e) lut d
  | .hwOp n e d => .hwOp n (rewriteNoOps e) d

/-- Modelled from the spec: on an already-legalized module every
composite-tagged pattern (conv2d, depthwise, pooling, elementwise, mean,
concat, tanh/sigmoid, reshape/strided-slice extraction) and the bare `split`
pattern of the eighteen passes preceding `LegalizeNoOps` has no match, and a
pattern with no match is a no-op, so each of those passes returns its input
unchanged; `RExpr` contains no composite or split node by construction. -/
def legalizeCompositePasses (e : RExpr) : RExpr := e

/-- Embedding of `LegalizeEthosU.transform_module` restricted to
already-legalized modules: the composite/split passes followed by
`LegalizeNoOps`. -/
def legalizeEthosU (e : RExpr) : RExpr :=
  rewriteNoOps (legalizeCompositePasses e)

/-- Whether a module contains a reshape or strided-slice node whose element
type is not int32 (the nodes `NoOpRewriter` wraps). -/
def containsNonInt32NoOp : RExpr → Bool
  | .var _ => false
  | .reshape e d => decide (d ≠ "int32") || containsNonInt32NoOp e
  | .stridedSlice e d => decide (d ≠ "int32") || containsNonInt32NoOp e
  | .ethosuIdentity e _ _ => containsNonInt32NoOp e
  | .hwOp _ e _ => containsNonInt32NoOp e

/-- Node count of an emitted expression. -/
def rsize : RExpr → Nat
  | .var _ => 1
  | .reshape e _ => rsize e + 1
  | .stridedSlice e _ => rsize e + 1
  | .ethosuIdentity e _ _ => rsize e + 1
  | .hwOp _ e _ => rsize e + 1

theorem rsize_rewriteNoOps_le (e : RExpr) : rsize e ≤ rsize (rewriteNoOps e) := by
  induction e with
  | var d => exact le_refl _
  | reshape e d ih =>
    rw [rewriteNoOps, noOpCallback]
    by_cases hd : d = "int32"
    · rw [if_pos hd]
      simpa [rsize] using ih
    · rw [if_neg hd]
      simp only [rsize]
      omega
  | stridedSlice e d ih =>
    rw [rewriteNoOps, noOpCallback]
    by_cases hd : d = "int32"
    · rw [if_pos hd]
      simpa [rsize] using ih
    · rw [if_neg hd]
      simp only [rsize]
      omega
  | ethosuIdentity e lut d ih =>
    simpa [rewriteNoOps, rsize] using ih
  | hwOp n e d ih =>
    simpa [rewriteNoOps, rsize] using ih

theorem rsize_rewriteNoOps_lt (e : RExpr)
    (h : containsNonInt32NoOp e = true) :
    rsize e < rsize (rewriteNoOps e) := by
  induction e with
  | var d => simp [containsNonInt32NoOp] at h
  | reshape e d ih =>
    rw [rewriteNoOps, noOpCallback]
    by_cases hd : d = "int32"
    · rw [if_pos hd]
      have he : containsNonInt32NoOp e = true := by
        simpa [containsNonInt32NoOp, hd] using h
      simpa [rsize] using ih he
    · rw [if_neg hd]
      have := rsize_rewriteNoOps_le e
      simp only [rsize]
      omega
  | stridedSlice e d ih =>
    rw [rewriteNoOps, noOpCallback]
    by_cases hd : d = "int32"
    · rw [if_pos hd]
      have he : containsNonInt32NoOp e = true := by
        simpa [containsNonInt32NoOp, hd] using h
      simpa [rsize] using ih he
    · rw [if_neg hd]
      have := rsize_rewriteNoOps_le e
      simp only [rsize]
      omega
  | ethosuIdentity e lut d ih =>
    have he : containsNonInt32NoOp e = true := by
      simpa [containsNonInt32NoOp] using h
    simpa [rewriteNoOps, rsize] using ih he
  | hwOp n e d ih =>
    have he : containsNonInt32NoOp e = true := by
      simpa [containsNonInt32NoOp] using h
    simpa [rewriteNoOps, rsize] using ih he

theorem rewriteNoOps_eq_of_not_contains (e : RExpr)
    (h : containsNonInt32NoOp e = false) : rewriteNoOps e = e := by
  induction e with
  | var d => rfl
  | reshape e d ih =>
    have hd : d = "int32" := by
      by_contra hne
      simp [containsNonInt32NoOp, hne] at h
    have he : containsNonInt32NoOp e = false := by
      simpa [containsNonInt32NoOp, hd] using h
    rw [rewriteNoOps, ih he, noOpCallback, if_pos hd]
  | stridedSlice e d ih =>
    have hd : d = "int32" := by
      by_contra hne
      simp [containsNonInt32NoOp, hne] at h
    have he : containsNonInt32NoOp e = false := by
      simpa [containsNonInt32NoOp, hd] using h
    rw [rewriteNoOps, ih he, noOpCallback, if_pos hd]
  | ethosuIdentity e lut d ih =>
    have he : containsNonInt32NoOp e = false := by
      simpa [containsNonInt32NoOp] using h
    rw [rewriteNoOps, ih he]
  | hwOp n e d ih =>
    have he : containsNonInt32NoOp e = false := by
      simpa [containsNonInt32NoOp] using h
    rw [rewriteNoOps, ih he]

/-- C5 counterexample: the pipeline output for a bare int8 reshape is an
identity-wrapped reshape, and running the pipeline again on that output wraps
the inner reshape in a second identity, so the second run is not a no-op. -/
theorem legalize_pipeline_not_idempotent :
    legalizeEthosU (legalizeEthosU (.reshape (.var "int8") "int8"))
      ≠ legalizeEthosU (.reshape (.var "int8") "int8") := by
  decide

/-- C5 amended: a pipeline run on an already-legalized module is a no-op
exactly when the module contains no reshape or strided-slice node of
non-int32 element type; otherwise every such node is wrapped in a fresh
identity operator and the module changes. -/
theorem legalize_pipeline_noop_iff (e : RExpr) :
    legalizeEthosU e = e ↔ containsNonInt32NoOp e = false := by
  constructor
  · intro h
    by_contra hne
    have htrue : containsNonInt32NoOp e = true := by
      cases hcc : containsNonInt32NoOp e
      · exact absurd hcc hne
      · rfl
    have hlt := rsize_rewriteNoOps_lt e htrue
    rw [show rewriteNoOps e = e from h] at hlt
    exact lt_irrefl _ hlt
  · intro h
    exact rewriteNoOps_eq_of_not_contains e h

/-- Whether every reshape or strided-slice node of non-int32 dtype occurring
in the expression is immediately wrapped by an `ethosu_identity`. -/
def wellGuarded : RExpr → Bool
  | .var _ => true
  | .reshape e d => decide (d = "int32") && wellGuarded e
  | .stridedSlice e d => decide (d = "int32") && wellGuarded e
  | .ethosuIdentity (.reshape e _) _ _ => wellGuarded e
  | .ethosuIdentity (.stridedSlice e _) _ _ => wellGuarded e
  | .ethosuIdentity e _ _ => wellGuarded e
  | .hwOp _ e _ => wellGuarded e

theorem wellGuarded_identity (e : RExpr) (lut : List ℤ) (d : String)
    (h : wellGuarded e = true) :
    wellGuarded (.ethosuIdentity e lut d) = true := by
  cases e with
  | var d' => exact h
  | reshape e' d' =>
    show wellGuarded e' = true
    rw [wellGuarded, Bool.and_eq_true] at h
    exact h.2
  | stridedSlice e' d' =>
    show wellGuarded e' = true
    rw [wellGuarded, Bool.and_eq_true] at h
    exact h.2
  | ethosuIdentity e' lut' d' => exact h
  | hwOp n e' d' => exact h

theorem wellGuarded_rewriteNoOps (e : RExpr) :
    wellGuarded (rewriteNoOps e) = true := by
  induction e with
  | var d => rfl
  | reshape e d ih =>
    rw [rewriteNoOps, noOpCallback]
    by_cases hd : d = "int32"
    · rw [if_pos hd, wellGuarded, hd]
      simpa using ih
    · rw [if_neg hd, wellGuarded]
      exact ih
  | stridedSlice e d ih =>
    rw [rewriteNoOps, noOpCallback]
    by_cases hd : d = "int32"
    · rw [if_pos hd, wellGuarded, hd]
      simpa using ih
    · rw [if_neg hd, wellGuarded]
      exact ih
  | ethosuIdentity e lut d ih =>
    rw [rewriteNoOps]
    exact wellGuarded_identity _ _ _ ih
  | hwOp n e d ih =>
    rw [rewriteNoOps, wellGuarded]
    exact ih

/-- C6: the no-op guard wraps a reshape or strided slice in an
`ethosu_identity` with an empty lookup table exactly when its element type is
not int32 (int32 ones are left unwrapped), and after the pass every non-int32
reshape or strided slice in the module is immediately guarded by an
identity. -/
theorem noop_guard_wraps (e : RExpr) (d : String) :
    rewriteNoOps (.reshape e d)
      = (if d = "int32" then .reshape (rewriteNoOps e) d
         else .ethosuIdentity (.reshape (rewriteNoOps e) d) [] d)
    ∧ rewriteNoOps (.stridedSlice e d)
      = (if d = "int32" then .stridedSlice (rewriteNoOps e) d
         else .ethosuIdentity (.stridedSlice (rewriteNoOps e) d) [] d)
    ∧ wellGuarded (rewriteNoOps e) = true := by
  refine ⟨?_, ?_, wellGuarded_rewriteNoOps e⟩
  · rw [rewriteNoOps, noOpCallback]
  · rw [rewriteNoOps, noOpCallback]

/-! ## Mean legalizer (`MeanRewriter`) -/

/-- The attributes of an `ethos-u.mean` composite consumed by
`MeanRewriter.callback`: input/output shapes, reduction axes, keep-dims flag
and the input/output quantization parameters.  Machine float32 scales are
modelled by rationals. -/
structure MeanParams where
  ifmShape : List Nat
  axis : List Nat
  keepdims : Bool
  ifmScale : ℚ
  ifmZp : ℤ
  ofmScale : ℚ
  ofmZp : ℤ
  ofmShape : List Nat
  ifmDtype : String
deriving DecidableEq

/-- Modelled from the spec: `MeanParams.height` of the patterns module
(outside `src/`) is the spatial height of the input, `ifm_shape[1]` for a
rank-4 input and `ifm_shape[0]` otherwise. -/
def meanHeight (p : MeanParams) : Nat :=
  if p.ifmShape.length = 4 then p.ifmShape.getD 1 1 else p.ifmShape.getD 0 1

/-- Modelled from the spec: `MeanParams.width` of the patterns module
(outside `src/`) is the spatial width of the input, `ifm_shape[2]` for a
rank-4 input and `ifm_shape[1]` otherwise. -/
def meanWidth (p : MeanParams) : Nat :=
  if p.ifmShape.length = 4 then p.ifmShape.getD 2 1 else p.ifmShape.getD 1 1

/-- Embedding of the rank-4 input normalization of `MeanRewriter.callback`
(lines `if len(ifm_shape) < 4`): the axis indices are shifted by one and the
shape becomes `[1, height, width, ifm_shape[2]]` for a rank-3 input and
`[1, height, width, 1]` otherwise; rank-4 inputs are unchanged.  Returns the
normalized shape and axis list. -/
def meanNormalize (p : MeanParams) : List Nat × List Nat :=
  if p.ifmShape.length < 4 then
    let axis := p.axis.map (· + 1)
    if p.ifmShape.length = 3 then
      ([1, meanHeight p, meanWidth p, p.ifmShape.getD 2 1], axis)
    else
      ([1, meanHeight p, meanWidth p, 1], axis)
  else (p.ifmShape, p.axis)

/-- The normalized reduction axis list used at the branch point of
`MeanRewriter.callback`. -/
def meanNormAxis (p : MeanParams) : List Nat := (meanNormalize p).2

/-- The `filter_height` local of `MeanRewriter.callback` before the
height-over-64 flattening: the normalized extent on axis 1 when axis 1 is
reduced, else 1. -/
def meanFilterHeight (p : MeanParams) : Nat :=
  if 1 ∈ (meanNormalize p).2 then (meanNormalize p).1.getD 1 1 else 1

/-- The `filter_width` local of `MeanRewriter.callback` before the
height-over-64 flattening: the normalized extent on axis 2 when axis 2 is
reduced, else 1. -/
def meanFilterWidth (p : MeanParams) : Nat :=
  if 2 ∈ (meanNormalize p).2 then (meanNormalize p).1.getD 2 1 else 1

/-- The pooling-window element count `n = filter_height * filter_width` of
the mean decomposition (invariant under the height-over-64 flattening). -/
def meanWindowSize (p : MeanParams) : Nat :=
  meanFilterHeight p * meanFilterWidth p

/-- The bias-correction epsilon of the Case A divide step:
`1 / (256 * (n + 1))` for an even window element count and 0 for an odd
one. -/
def meanEps (n : Nat) : ℚ :=
  if n % 2 = 0 then 1 / (256 * ((n : ℚ) + 1)) else 0

/-- The attributes of an `ethosu_depthwise_conv2d` operator emitted by the
mean decomposition. -/
structure DepthwiseOp where
  kernelShape : Nat × Nat
  ifmScale : ℚ
  ifmZp : ℤ
  weightZp : ℤ
  ofmScale : ℚ
  ofmZp : ℤ
  ofmChannels : Nat
  ofmDtype : Option String
  weightScale : ℚ
  biasPerChannel : ℤ
  roundingMode : Option String
deriving DecidableEq

/-- The attributes of the `ethosu_binary_elementwise` multiply emitted by the
Case A mean decomposition. -/
structure BinaryEltwiseOp where
  operatorType : String
  ifmScale : ℚ
  ifmZp : ℤ
  ifm2Scale : ℚ
  ifm2Zp : ℤ
  ofmScale : ℚ
  ofmZp : ℤ
  ofmChannels : Nat
  ofmDtype : String
  roundingMode : String
deriving DecidableEq

/-- The attributes of the `ethosu_pooling` operator emitted by the Case B
mean decomposition. -/
structure MeanPoolingOp where
  poolingType : String
  ifmScale : ℚ
  ifmZp : ℤ
  ofmScale : ℚ
  ofmZp : ℤ
  poolShape : Nat × Nat
  ofmChannels : Nat
  roundingMode : String
deriving DecidableEq

/-- The three structurally different lowerings emitted by
`MeanRewriter.callback`. -/
inductive MeanLowering where
  | caseA (dw : DepthwiseOp) (mul : BinaryEltwiseOp)
  | caseB (pool : MeanPoolingOp)
  | caseC (dw : DepthwiseOp)
deriving DecidableEq

/-- Embedding of the branch selection and operator parameters of
`MeanRewriter.callback`: after rank normalization the filter dimensions are
derived; a window with `filter_height > 64` and axis `[1, 2]` is flattened to
height 1 and width `filter_height * filter_width`; then Case A (depthwise
summing convolution into int16 followed by a reciprocal multiply) is chosen
for axis `[1, 2]` with keep-dims, Case B (average pooling with zeroed
pseudo-zero-points, truncate rounding) for identical input/output
quantization parameters, and Case C (single depthwise convolution with weight
scale `1/n` and bias cancelling the input zero-point) otherwise. -/
def meanCallback (p : MeanParams) : MeanLowering :=
  let axis := (meanNormalize p).2
  let filterHeight0 := meanFilterHeight p
  let filterWidth0 := meanFilterWidth p
  let inChannels := (meanNormalize p).1.getLastD 0
  let outChannels := inChannels
  let filterHeight := if axis = [1, 2] ∧ 64 < filterHeight0 then 1
    else filterHeight0
  let filterWidth := if axis = [1, 2] ∧ 64 < filterHeight0 then
      filterHeight0 * filterWidth0
    else filterWidth0
  if axis = [1, 2] ∧ p.keepdims = true then
    let dw : DepthwiseOp :=
      { kernelShape := (filterHeight, filterWidth)
        ifmScale := p.ifmScale
        ifmZp := p.ifmZp
        weightZp := 0
        ofmScale := p.ofmScale
        ofmZp := p.ofmZp
        ofmChannels := outChannels
        ofmDtype := some "int16"
        weightScale := 1
        biasPerChannel := 0
        roundingMode := none }
    let n : Nat := filterHeight * filterWidth
    let eps : ℚ := if n % 2 = 0 then 1 / (256 * ((n : ℚ) + 1)) else 0
    let mul : BinaryEltwiseOp :=
      { operatorType := "MUL"
        ifmScale := p.ofmScale
        ifmZp := p.ofmZp
        ifm2Scale := 1 / ((n : ℚ) - eps)
        ifm2Zp := 0
        ofmScale := p.ofmScale
        ofmZp := p.ofmZp
        ofmChannels := outChannels
        ofmDtype := "int8"
        roundingMode := "NATURAL" }
    .caseA dw mul
  else if p.ifmScale = p.ofmScale ∧ p.ifmZp = p.ofmZp then
    .caseB
      { poolingType := "AVG"
        ifmScale := p.ifmScale
        ifmZp := 0
        ofmScale := p.ofmScale
        ofmZp := 0
        poolShape := (filterHeight, filterWidth)
        ofmChannels := outChannels
        roundingMode := "TRUNCATE" }
  else
    .caseC
      { kernelShape := (filterHeight, filterWidth)
        ifmScale := p.ifmScale
        ifmZp := 0
        weightZp := 0
        ofmScale := p.ofmScale
        ofmZp := p.ofmZp
        ofmChannels := outChannels
        ofmDtype := none
        weightScale := 1 / (((filterHeight * filterWidth : Nat)) : ℚ)
        biasPerChannel := -1 * p.ifmZp * (filterHeight : ℤ) * (filterWidth : ℤ)
        roundingMode := some "NATURAL" }

/-- Discriminator for the Case A lowering. -/
def isCaseA : MeanLowering → Bool
  | .caseA _ _ => true
  | _ => false

/-- Discriminator for the Case B lowering. -/
def isCaseB : MeanLowering → Bool
  | .caseB _ => true
  | _ => false

/-- Discriminator for the Case C lowering. -/
def isCaseC : MeanLowering → Bool
  | .caseC _ => true
  | _ => false

/-- A rank-4 mean composite with reduction axes `[1, 2]`, keep-dims, a window
of height 65 (above the hardware maximum of 64), and differing input/output
quantization parameters. -/
def meanCexParams : MeanParams :=
  { ifmShape := [1, 65, 2, 1], axis := [1, 2], keepdims := true,
    ifmScale := 1, ifmZp := 0, ofmScale := 2, ofmZp := 0,
    ofmShape := [1, 1, 1, 1], ifmDtype := "int8" }

/-- C1 counterexample: on a mean composite with axes `[1, 2]`, keep-dims true
and window height 65 the claim's stated Case A guard (window at most 64)
fails and its quantization parameters differ, so the claim as stated selects
Case C; the code nevertheless emits the Case A lowering (flattening the
window first). -/
theorem mean_branch_counterexample :
    meanNormAxis meanCexParams = [1, 2]
    ∧ meanCexParams.keepdims = true
    ∧ 64 < meanFilterHeight meanCexParams
    ∧ 64 < meanWindowSize meanCexParams
    ∧ ¬(meanCexParams.ifmScale = meanCexParams.ofmScale
        ∧ meanCexParams.ifmZp = meanCexParams.ofmZp)
    ∧ isCaseC (meanCallback meanCexParams) = false
    ∧ isCaseA (meanCallback meanCexParams) = true := by
  decide

/-- C1 amended: the Case A lowering is selected whenever the normalized
reduction axes are `[1, 2]` and keep-dims is true, regardless of the window
size (a window of height over 64 is first flattened); Case B is selected when
Case A is not and input and output quantization parameters coincide; Case C
is selected in every other case. -/
theorem mean_branch_selection (p : MeanParams) :
    (meanNormAxis p = [1, 2] → p.keepdims = true →
        isCaseA (meanCallback p) = true)
    ∧ (¬(meanNormAxis p = [1, 2] ∧ p.keepdims = true) →
        p.ifmScale = p.ofmScale → p.ifmZp = p.ofmZp →
        isCaseB (meanCallback p) = true)
    ∧ (¬(meanNormAxis p = [1, 2] ∧ p.keepdims = true) →
        ¬(p.ifmScale = p.ofmScale ∧ p.ifmZp = p.ofmZp) →
        isCaseC (meanCallback p) = true) := by
  refine ⟨?_, ?_, ?_⟩
  · intro hax hkd
    have hc : (meanNormalize p).2 = [1, 2] ∧ p.keepdims = true := ⟨hax, hkd⟩
    simp only [meanCallback]
    rw [if_pos hc]
    rfl
  · intro hnc hs hz
    have hnc' : ¬((meanNormalize p).2 = [1, 2] ∧ p.keepdims = true) := hnc
    simp only [meanCallback]
    rw [if_neg hnc', if_pos ⟨hs, hz⟩]
    rfl
  · intro hnc hnq
    have hnc' : ¬((meanNormalize p).2 = [1, 2] ∧ p.keepdims = true) := hnc
    simp only [meanCallback]
    rw [if_neg hnc', if_neg hnq]
    rfl

/-- A rank-4 mean composite selecting Case A. -/
def meanTestA : MeanParams :=
  { ifmShape := [1, 2, 2, 1], axis := [1, 2], keepdims := true,
    ifmScale := 1, ifmZp := 0, ofmScale := 1, ofmZp := 0,
    ofmShape := [1, 1, 1, 1], ifmDtype := "int8" }

/-- A rank-4 mean composite selecting Case B. -/
def meanTestB : MeanParams :=
  { ifmShape := [1, 8, 16, 16], axis := [2], keepdims := false,
    ifmScale := 1, ifmZp := 0, ofmScale := 1, ofmZp := 0,
    ofmShape := [1, 8, 16], ifmDtype := "int8" }

/-- A rank-2 mean composite selecting Case C. -/
def meanTestC : MeanParams :=
  { ifmShape := [8, 4], axis := [0], keepdims := false,
    ifmScale := 1, ifmZp := 0, ofmScale := 2, ofmZp := 1,
    ofmShape := [4], ifmDtype := "int8" }

/-- Witness instantiating `mean_branch_selection` on composites exercising
all three branches. -/
theorem mean_branch_selection_witness :
    isCaseA (meanCallback meanTestA) = true
    ∧ isCaseB (meanCallback meanTestB) = true
    ∧ isCaseC (meanCallback meanTestC) = true :=
  ⟨(mean_branch_selection meanTestA).1 (by decide) (by decide),
   (mean_branch_selection meanTestB).2.1 (by decide) (by decide) (by decide),
   (mean_branch_selection meanTestC).2.2 (by decide) (by decide)⟩

/-- A rank-2 mean composite, reducing over axis 0 of a `[3, 5]` input. -/
def meanRank2Params : MeanParams :=
  { ifmShape := [3, 5], axis := [0], keepdims := false,
    ifmScale := 1, ifmZp := 0, ofmScale := 1, ofmZp := 0,
    ofmShape := [5], ifmDtype := "int8" }

/-- C8 counterexample: for a rank-2 input the mean legalizer does not
normalize by only prepending size-1 axes (which would give shape
`[1, 1, 3, 5]` with axes shifted by 2); it produces `[1, 3, 5, 1]` — one axis
prepended and one appended — with axes shifted by 1. -/
theorem mean_normalize_counterexample :
    meanNormalize meanRank2Params
      ≠ (List.replicate (4 - meanRank2Params.ifmShape.length) 1
            ++ meanRank2Params.ifmShape,
         meanRank2Params.axis.map (· + (4 - meanRank2Params.ifmShape.length)))
    ∧ meanNormalize meanRank2Params = ([1, 3, 5, 1], [1]) := by
  decide

/-- C8 amended: a rank-3 input is normalized by prepending one size-1 axis
and shifting the reduction axes by 1; a rank-2 input is normalized by
prepending one size-1 axis and appending one size-1 axis, the reduction axes
again shifted by 1; a rank-4 input is left unchanged. -/
theorem mean_normalize_amended (p : MeanParams) :
    (p.ifmShape.length = 3 →
        meanNormalize p = (1 :: p.ifmShape, p.axis.map (· + 1)))
    ∧ (∀ a b : Nat, p.ifmShape = [a, b] →
        meanNormalize p = ([1, a, b, 1], p.axis.map (· + 1)))
    ∧ (4 ≤ p.ifmShape.length → meanNormalize p = (p.ifmShape, p.axis)) := by
  refine ⟨?_, ?_, ?_⟩
  · intro h3
    obtain ⟨a, b, c, habc⟩ := List.length_eq_three.mp h3
    simp [meanNormalize, meanHeight, meanWidth, habc]
  · intro a b hab
    simp [meanNormalize, meanHeight, meanWidth, hab]
  · intro h4
    have hnlt : ¬(p.ifmShape.length < 4) := by omega
    simp [meanNormalize, hnlt]

/-- A rank-3 mean composite. -/
def meanRank3Params : MeanParams :=
  { ifmShape := [2, 3, 4], axis := [0, 1], keepdims := true,
    ifmScale := 1, ifmZp := 0, ofmScale := 1, ofmZp := 0,
    ofmShape := [1, 1, 4], ifmDtype := "int8" }

/-- A second rank-2 mean composite, reducing over axis 1. -/
def meanRank2bParams : MeanParams :=
  { ifmShape := [8, 4], axis := [1], keepdims := false,
    ifmScale := 1, ifmZp := 0, ofmScale := 1, ofmZp := 0,
    ofmShape := [8], ifmDtype := "int8" }

/-- Witness instantiating `mean_normalize_amended` on a rank-3 and a rank-2
composite. -/
theorem mean_normalize_amended_witness :
    meanNormalize meanRank3Params
      = (1 :: meanRank3Params.ifmShape, meanRank3Params.axis.map (· + 1))
    ∧ meanNormalize meanRank2bParams
      = ([1, 8, 4, 1], meanRank2bParams.axis.map (· + 1)) :=
  ⟨(mean_normalize_amended meanRank3Params).1 (by decide),
   (mean_normalize_amended meanRank2bParams).2.1 8 4 (by decide)⟩

/-- C9: whenever the mean legalizer emits the Case A lowering, the divide
step is a binary elementwise multiply whose scalar operand has scale
`1 / (n - eps)` for the window element count `n` and bias-correction epsilon
`eps = 1/(256*(n+1))` for even `n` and 0 for odd `n`, zero point 0, and the
result is requantized to int8 at the output scale and zero point. -/
theorem mean_caseA_multiplier (p : MeanParams) (dw : DepthwiseOp)
    (mul : BinaryEltwiseOp) (h : meanCallback p = .caseA dw mul) :
    mul.ifm2Scale
      = 1 / ((meanWindowSize p : ℚ) - meanEps (meanWindowSize p))
    ∧ mul.ifm2Zp = 0
    ∧ mul.ofmDtype = "int8"
    ∧ mul.ofmScale = p.ofmScale
    ∧ mul.ofmZp = p.ofmZp := by
  simp only [meanCallback] at h
  by_cases h1 : (meanNormalize p).2 = [1, 2] ∧ p.keepdims = true
  · rw [if_pos h1] at h
    have hn : (if (meanNormalize p).2 = [1, 2] ∧ 64 < meanFilterHeight p
          then 1 else meanFilterHeight p)
        * (if (meanNormalize p).2 = [1, 2] ∧ 64 < meanFilterHeight p
            then meanFilterHeight p * meanFilterWidth p
          else meanFilterWidth p)
        = meanWindowSize p := by
      by_cases hc : (meanNormalize p).2 = [1, 2] ∧ 64 < meanFilterHeight p
      · simp [hc, meanWindowSize]
      · simp [hc, meanWindowSize]
    rw [hn] at h
    injection h with hdw hmul
    refine ⟨?_, by rw [← hmul], by rw [← hmul], by rw [← hmul], by rw [← hmul]⟩
    rw [← hmul]
    dsimp only
    simp only [meanEps]
  · rw [if_neg h1] at h
    by_cases h2 : p.ifmScale = p.ofmScale ∧ p.ifmZp = p.ofmZp
    · rw [if_pos h2] at h
      exact absurd h (by simp)
    · rw [if_neg h2] at h
      exact absurd h (by simp)

/-- The depthwise summing convolution emitted by Case A on
`meanDivParams`. -/
def meanDivDw : DepthwiseOp :=
  { kernelShape := (2, 2), ifmScale := 1, ifmZp := 0, weightZp := 0,
    ofmScale := 1, ofmZp := 0, ofmChannels := 1, ofmDtype := some "int16",
    weightScale := 1, biasPerChannel := 0, roundingMode := none }

/-- The reciprocal multiply emitted by Case A on `meanDivParams`: the window
count is 4 (even), so the scale is `1 / (4 - 1/1280) = 1280/5119`. -/
def meanDivMul : BinaryEltwiseOp :=
  { operatorType := "MUL", ifmScale := 1, ifmZp := 0,
    ifm2Scale := 1280 / 5119, ifm2Zp := 0, ofmScale := 1, ofmZp := 0,
    ofmChannels := 1, ofmDtype := "int8", roundingMode := "NATURAL" }

/-- A rank-4 mean composite with a 2-by-2 window selecting Case A. -/
def meanDivParams : MeanParams :=
  { ifmShape := [1, 2, 2, 1], axis := [1, 2], keepdims := true,
    ifmScale := 1, ifmZp := 0, ofmScale := 1, ofmZp := 0,
    ofmShape := [1, 1, 1, 1], ifmDtype := "int8" }

/-- Witness instantiating `mean_caseA_multiplier` on a concrete Case A
lowering. -/
theorem mean_caseA_multiplier_witness :
    meanDivMul.ifm2Scale
      = 1 / ((meanWindowSize meanDivParams : ℚ)
          - meanEps (meanWindowSize meanDivParams))
    ∧ meanDivMul.ifm2Zp = 0
    ∧ meanDivMul.ofmDtype = "int8"
    ∧ meanDivMul.ofmScale = meanDivParams.ofmScale
    ∧ meanDivMul.ofmZp = meanDivParams.ofmZp :=
  mean_caseA_multiplier meanDivParams meanDivDw meanDivMul (by
    simp [meanCallback, meanNormalize, meanHeight, meanWidth,
      meanFilterHeight, meanFilterWidth, meanDivParams, meanDivDw, meanDivMul]
    norm_num)

end EthosULegalize
